import Mathlib

/-!
Verification development for the Laghos hydrodynamics core: a shallow
embedding of the force-integrator element assembly
(`ForceIntegrator::AssembleElementMatrix2`), the partially-assembled mass
operator (`kMassPAOperator`), and the adaptive time-stepping control loop of
the main driver, together with theorems about them.

Scalars are modelled by `ℚ`; the external finite-element primitives (basis
values, gradients, the assembled mass action, the ODE stage update and the
CFL time-step estimate) are parameters of the embedding.
-/

namespace Laghos

/-! ## Force integrator

Embedding of `ForceIntegrator::AssembleElementMatrix2`:

    elmat.SetSize(l2dofs_cnt, h1dofs_cnt*dim);  elmat = 0.0;
    for q in 0..nqp:
      trial_fe.CalcDShape(ip, vshape)
      loc_force(i, vd) = sum_gd stressJinvT(vd)(e*nqp+q, gd) * vshape(i, gd)
      test_fe.CalcShape(ip, shape)
      AddMultVWt(shape, Vloc_force, elmat)      -- elmat(j,k) += shape(j)*Vloc(k)

`Vloc_force` views the column-major `loc_force` (size h1dofs_cnt × dim) as a
flat vector, so flat index `k` corresponds to entry `(k % h1, k / h1)`.
The basis values `vshape`/`shape` depend on the quadrature point `q`; the
stress array `stressJinvT` is indexed `(vd)(e*nqp+q, gd)` as in the source.
-/

namespace Force

/-- The inner loop of `AssembleElementMatrix2` computing
`loc_force(i, vd) = Σ_gd stressJinvT(vd)(e*nqp+q, gd) * vshape(q)(i, gd)`,
accumulated exactly as the `gd` loop does (starting from `0.0`). -/
def locForce (stressJinvT : ℕ → ℕ → ℕ → ℚ) (vshape : ℕ → ℕ → ℕ → ℚ)
    (dim e nqp q i vd : ℕ) : ℚ :=
  (List.range dim).foldl
    (fun acc gd => acc + stressJinvT vd (e * nqp + q) gd * vshape q i gd) 0

/-- `AssembleElementMatrix2`: the element matrix as a function of its two
indices `(j, k)` with `j` a thermodynamic (L2, test) dof and `k` a flat
kinematic (H1 × dim, trial) dof. The matrix starts at `0.0` and each
quadrature point adds `shape(q)(j) * Vloc_force(k)` (`AddMultVWt`). -/
def assembleElementMatrix2 (stressJinvT : ℕ → ℕ → ℕ → ℚ)
    (vshape : ℕ → ℕ → ℕ → ℚ) (shape : ℕ → ℕ → ℚ)
    (dim e nqp h1dofs_cnt : ℕ) : ℕ → ℕ → ℚ :=
  (List.range nqp).foldl
    (fun elmat q => fun j k =>
      elmat j k +
        shape q j *
          locForce stressJinvT vshape dim e nqp q (k % h1dofs_cnt)
            (k / h1dofs_cnt))
    (fun _ _ => 0)

end Force

/-! ## kMassPAOperator (src/kernels/kMassPAOperator.cpp)

The operator state carries the essential-dof bookkeeping
(`ess_tdofs_count : int`, the `ess_tdofs` array with its recorded `Size()`),
and `massOperator`, a pointer that is `NULL` from construction until
`Setup()` installs the partially-assembled mass action (modelled as an
`Option` of an abstract vector-to-vector function).  Vectors are `ℤ → ℚ`
(dof-indexed); `Mult` works on a store of the three vectors it touches:
the input `x`, the output `y` and the scratch member `distX`. -/

namespace KMass

/-- A fatal failure: `assert(...)` firing, or dereferencing a null pointer
(which in the C++ source is undiagnosed undefined behaviour, modelled here
as its own failure so the two cannot be confused). -/
inductive Failure where
  | assertFail : Failure
  | nullDeref : Failure
deriving DecidableEq

/-- State of a `kMassPAOperator` relevant to the modelled methods. -/
structure OpState where
  ess_tdofs_count : ℤ
  ess_tdofs : List ℤ
  ess_tdofs_size : ℕ
  massOperator : Option ((ℤ → ℚ) → (ℤ → ℚ))

/-- The vectors `Mult` reads or writes: the caller's `x` and `y`, and the
operator's scratch member `distX`. -/
structure MStore where
  x : ℤ → ℚ
  y : ℤ → ℚ
  distX : ℤ → ℚ

/-- `Vector::SetSubVector(dofs, 0.0)`: overwrite the entries indexed by
`dofs` with the constant, leave every other entry unchanged. -/
def setSubVector (v : ℤ → ℚ) (dofs : List ℤ) (c : ℚ) : ℤ → ℚ :=
  fun i => if i ∈ dofs then c else v i

/-- The member state set up by the `kMassPAOperator` constructor:
`ess_tdofs_count(0)`, `ess_tdofs(0)` (empty, size 0) and
`massOperator(NULL)`. `Setup()` is what later installs `massOperator`. -/
def ctorState : OpState :=
  { ess_tdofs_count := 0
    ess_tdofs := []
    ess_tdofs_size := 0
    massOperator := none }

/-- `kMassPAOperator::SetEssentialTrueDofs(dofs)`.  `othersCount` is the
sum of `dofs.Size()` over the other MPI ranks, so that the
`MPI_Allreduce(..., MPI_SUM, ...)` result is `dofs.length + othersCount`
(on a single rank it is `0`).  The first call (recorded size still `0`)
asserts the global count positive and sizes the array to it; any later
call asserts the new count is at most the recorded size.  A call with
count `0` returns before assigning; otherwise `ess_tdofs = dofs` copies
the array (making its size `dofs.length`). -/
def SetEssentialTrueDofs (op : OpState) (dofs : List ℤ) (othersCount : ℤ) :
    Except Failure OpState :=
  let cnt : ℤ := dofs.length
  let op1 : OpState := { op with ess_tdofs_count := cnt }
  if op1.ess_tdofs_size = 0 then
    let globalCnt : ℤ := cnt + othersCount
    if 0 < globalCnt then
      let op2 : OpState := { op1 with ess_tdofs_size := globalCnt.toNat }
      if cnt = 0 then Except.ok op2
      else Except.ok { op2 with ess_tdofs := dofs, ess_tdofs_size := dofs.length }
    else Except.error Failure.assertFail
  else
    if cnt ≤ (op1.ess_tdofs_size : ℤ) then
      if cnt = 0 then Except.ok op1
      else Except.ok { op1 with ess_tdofs := dofs, ess_tdofs_size := dofs.length }
    else Except.error Failure.assertFail

/-- `kMassPAOperator::EliminateRHS(b)`: zero the pinned entries of `b` in
place when any dofs are recorded, otherwise leave `b` unchanged. -/
def EliminateRHS (op : OpState) (b : ℤ → ℚ) : ℤ → ℚ :=
  if op.ess_tdofs_count ≠ 0 then setSubVector b op.ess_tdofs 0 else b

/-- `kMassPAOperator::Mult(x, y)`: `distX = x`; if any essential dofs are
recorded, zero them in `distX`; `massOperator->Mult(distX, y)` — a null
dereference if `Setup()` has not installed `massOperator`; finally zero
the essential dofs of `y`. -/
def Mult (op : OpState) (s : MStore) : Except Failure MStore :=
  let s1 : MStore := { s with distX := s.x }
  let s2 : MStore :=
    if op.ess_tdofs_count ≠ 0 then
      { s1 with distX := setSubVector s1.distX op.ess_tdofs 0 }
    else s1
  match op.massOperator with
  | none => Except.error Failure.nullDeref
  | some massAction =>
    let s3 : MStore := { s2 with y := massAction s2.distX }
    let s4 : MStore :=
      if op.ess_tdofs_count ≠ 0 then
        { s3 with y := setSubVector s3.y op.ess_tdofs 0 }
      else s3
    Except.ok s4

/-- `true` exactly when the call failed (an assertion fired or a null
pointer was dereferenced). -/
def isErr {α : Type} : Except Failure α → Bool
  | Except.error _ => true
  | Except.ok _ => false

/-- Successful result of `SetEssentialTrueDofs`, with the input state as a
(dead) default in the error case. -/
def setDofsOk (op : OpState) (dofs : List ℤ) (othersCount : ℤ) : OpState :=
  match SetEssentialTrueDofs op dofs othersCount with
  | Except.ok r => r
  | Except.error _ => op

/-- Successful result of `Mult`, with the input store as a (dead) default
in the error case. -/
def multOk (op : OpState) (s : MStore) : MStore :=
  match Mult op s with
  | Except.ok r => r
  | Except.error _ => s

end KMass

/-! ## Adaptive time-stepping control loop

Embedding of the time-integration loop of the main driver:

    for (int ti = 1; !last_step; ti++)
    {
       if (t + dt >= t_final) { dt = t_final - t; last_step = true; }
       if (steps == max_tsteps) { last_step = true; }
       S_old = S;  t_old = t;
       hydro.ResetTimeStepEstimate();
       ode_solver->Step(S, t, dt);
       steps++;
       const double dt_est = hydro.GetTimeStepEstimate(S);
       if (dt_est < dt)
       {
          dt *= 0.85;
          if (dt < epsilon) { MFEM_ABORT("The time step crashed!"); }
          t = t_old;  S = S_old;
          hydro.ResetQuadratureData();
          if (steps < max_tsteps) { last_step = false; }
          ti--; continue;
       }
       else if (dt_est > 1.25 * dt) { dt *= 1.02; }
       ...
    }

The ODE stage update `ode_solver->Step(S, t, dt)` (which produces the new
state and sets `t := t + dt`) and the estimate `GetTimeStepEstimate` on
the post-step state are abstract parameters `stepF` and `est` of the
configuration.  The quadrature cache's validity flag (the step refreshes
it, `ResetQuadratureData` clears it) is tracked as `qdataValid`. -/

namespace Ctl

/-- Run configuration: final time, maximum step count (`-1`, the default,
disables the limit), the abort floor `eps`
(`std::numeric_limits<double>::epsilon()`), the ODE stage update and the
post-step time-step estimate. -/
structure Cfg (σ : Type) where
  t_final : ℚ
  max_tsteps : ℤ
  eps : ℚ
  stepF : σ → ℚ → ℚ → σ
  est : σ → ℚ

/-- The loop variables of the driver: iteration index `ti`, time `t`, step
size `dt`, state vector `S`, step counter `steps`, the `last_step` flag,
the saved rollback pair `(t_old, S_old)` and the quadrature-cache flag. -/
structure LState (σ : Type) where
  ti : ℤ
  t : ℚ
  dt : ℚ
  S : σ
  steps : ℤ
  last_step : Bool
  t_old : ℚ
  S_old : σ
  qdataValid : Bool

/-- Result of running the loop: still `running`, `exited` normally through
the `!last_step` condition, or `crashed` through
`MFEM_ABORT("The time step crashed!")`. -/
inductive Outcome (σ : Type) where
  | running : LState σ → Outcome σ
  | exited : LState σ → Outcome σ
  | crashed : LState σ → Outcome σ

/-- The step size actually used by the attempt: `dt` clamped so that
`t + dt` does not pass `t_final` (the first `if` of the loop body). -/
def clampedDt {σ : Type} (cfg : Cfg σ) (st : LState σ) : ℚ :=
  if cfg.t_final ≤ st.t + st.dt then cfg.t_final - st.t else st.dt

/-- The estimate `dt_est` the decision is made on: `GetTimeStepEstimate`
applied to the state produced by the stage update at the clamped `dt`. -/
def attemptEst {σ : Type} (cfg : Cfg σ) (st : LState σ) : ℚ :=
  cfg.est (cfg.stepF st.S st.t (clampedDt cfg st))

/-- One iteration of the `for` body (entered with `last_step = false`),
transcribed statement by statement.  On rejection the net effect of
`ti--; continue;` and the loop's `ti++` is that `ti` is unchanged; on
acceptance `ti` advances by one. -/
def body {σ : Type} (cfg : Cfg σ) (st : LState σ) : Outcome σ :=
  let dt0 : ℚ := if cfg.t_final ≤ st.t + st.dt then cfg.t_final - st.t else st.dt
  let ls0 : Bool := if cfg.t_final ≤ st.t + st.dt then true else st.last_step
  let ls1 : Bool := if st.steps = cfg.max_tsteps then true else ls0
  let sOld : σ := st.S
  let tOld : ℚ := st.t
  let s1 : σ := cfg.stepF st.S st.t dt0
  let t1 : ℚ := st.t + dt0
  let steps1 : ℤ := st.steps + 1
  let dt_est : ℚ := cfg.est s1
  if dt_est < dt0 then
    let dt1 : ℚ := dt0 * (85 / 100)
    if dt1 < cfg.eps then
      Outcome.crashed
        { ti := st.ti, t := t1, dt := dt1, S := s1, steps := steps1,
          last_step := ls1, t_old := tOld, S_old := sOld, qdataValid := true }
    else
      let ls2 : Bool := if steps1 < cfg.max_tsteps then false else ls1
      Outcome.running
        { ti := st.ti, t := tOld, dt := dt1, S := sOld, steps := steps1,
          last_step := ls2, t_old := tOld, S_old := sOld, qdataValid := false }
  else
    let dt2 : ℚ := if (125 / 100 : ℚ) * dt0 < dt_est then dt0 * (102 / 100) else dt0
    Outcome.running
      { ti := st.ti + 1, t := t1, dt := dt2, S := s1, steps := steps1,
        last_step := ls1, t_old := tOld, S_old := sOld, qdataValid := true }

/-- One turn of the loop driver: check the `!last_step` condition, then run
the body.  Terminal outcomes absorb. -/
def loopStep {σ : Type} (cfg : Cfg σ) : Outcome σ → Outcome σ
  | Outcome.running st => if st.last_step then Outcome.exited st else body cfg st
  | Outcome.exited st => Outcome.exited st
  | Outcome.crashed st => Outcome.crashed st

/-- Iterate the loop driver `n` turns from an arbitrary outcome. -/
def runO {σ : Type} (cfg : Cfg σ) : Outcome σ → ℕ → Outcome σ
  | o, 0 => o
  | o, n + 1 => runO cfg (loopStep cfg o) n

/-- Run the loop `n` turns from the loop variables `st`. -/
def run {σ : Type} (cfg : Cfg σ) (st : LState σ) (n : ℕ) : Outcome σ :=
  runO cfg (Outcome.running st) n

/-- The loop variables carried by an outcome. -/
def Outcome.state {σ : Type} : Outcome σ → LState σ
  | Outcome.running st => st
  | Outcome.exited st => st
  | Outcome.crashed st => st

/-- The `last_step` flag after the two marking `if`s at the top of the
body (final-time clamp, then `steps == max_tsteps`). -/
def lsMarked {σ : Type} (cfg : Cfg σ) (st : LState σ) : Bool :=
  if st.steps = cfg.max_tsteps then true
  else if cfg.t_final ≤ st.t + st.dt then true
  else st.last_step

/-- The loop variables after a rejected attempt that did not hit the abort
floor: `t` and `S` rolled back to their saved values, `dt` shrunk by
`0.85`, `ti` unchanged (net effect of `ti--; continue;` and the loop's
`ti++`), the step counter incremented, the quadrature cache invalidated,
and `last_step` re-enabled only when `steps < max_tsteps`. -/
def rejState {σ : Type} (cfg : Cfg σ) (st : LState σ) : LState σ :=
  { ti := st.ti
    t := st.t
    dt := clampedDt cfg st * (85 / 100)
    S := st.S
    steps := st.steps + 1
    last_step := if st.steps + 1 < cfg.max_tsteps then false else lsMarked cfg st
    t_old := st.t
    S_old := st.S
    qdataValid := false }

/-- The loop variables after an accepted attempt: the post-step state and
time are kept, `dt` grown by `1.02` exactly when `dt_est > 1.25·dt`. -/
def accState {σ : Type} (cfg : Cfg σ) (st : LState σ) : LState σ :=
  { ti := st.ti + 1
    t := st.t + clampedDt cfg st
    dt :=
      if (125 / 100 : ℚ) * clampedDt cfg st < attemptEst cfg st then
        clampedDt cfg st * (102 / 100)
      else clampedDt cfg st
    S := cfg.stepF st.S st.t (clampedDt cfg st)
    steps := st.steps + 1
    last_step := lsMarked cfg st
    t_old := st.t
    S_old := st.S
    qdataValid := true }

/-- The loop variables at the moment `MFEM_ABORT("The time step crashed!")`
fires: the shrunken `dt` fell below `eps` before the rollback assignments
run. -/
def crashState {σ : Type} (cfg : Cfg σ) (st : LState σ) : LState σ :=
  { ti := st.ti
    t := st.t + clampedDt cfg st
    dt := clampedDt cfg st * (85 / 100)
    S := cfg.stepF st.S st.t (clampedDt cfg st)
    steps := st.steps + 1
    last_step := lsMarked cfg st
    t_old := st.t
    S_old := st.S
    qdataValid := true }

/-- Loop-invariant of a run that keeps rejecting: nonnegative step count,
`last_step` clear, positive step size, and the next attempt not clamped. -/
def Inv {σ : Type} (cfg : Cfg σ) (st : LState σ) : Prop :=
  0 ≤ st.steps ∧ st.last_step = false ∧ 0 < st.dt ∧ st.t + st.dt < cfg.t_final

/-- Concrete configuration over `σ = ℚ` whose first attempt from `stW` is
rejected and whose retry is accepted. -/
def cfgW : Cfg ℚ :=
  { t_final := 100
    max_tsteps := -1
    eps := 1 / 1000000
    stepF := fun s _ dt => s + dt
    est := fun s => if s < 1 then 2 else 1 / 2 }

/-- Concrete initial loop variables used with `cfgW` and `cfgR`. -/
def stW : LState ℚ :=
  { ti := 1, t := 0, dt := 1, S := 0, steps := 0, last_step := false,
    t_old := 0, S_old := 0, qdataValid := true }

/-- Concrete configuration whose estimate is always negative, so every
attempt is rejected. -/
def cfgR : Cfg ℚ :=
  { t_final := 100
    max_tsteps := -1
    eps := 1 / 2
    stepF := fun s _ _ => s
    est := fun _ => -1 }

/-- Concrete configuration for the clamped-final-step scenario. -/
def cfgX : Cfg ℚ :=
  { t_final := 1
    max_tsteps := -1
    eps := 1 / 1000000
    stepF := fun s _ dt => s + dt
    est := fun _ => 0 }

/-- Loop variables whose next attempt is clamped to reach `t_final` and
then rejected. -/
def stX : LState ℚ :=
  { ti := 5, t := 1 / 2, dt := 2, S := 3, steps := 3, last_step := false,
    t_old := 0, S_old := 0, qdataValid := true }

end Ctl

/-! Concrete fixtures for the mass-operator theorems. -/

namespace KMass

/-- An operator state after `Setup` and `SetEssentialTrueDofs([0])`: one
pinned dof, identity mass action. -/
def opW : OpState :=
  { ess_tdofs_count := 1
    ess_tdofs := [0]
    ess_tdofs_size := 1
    massOperator := some (fun v => v) }

/-- A concrete input store. -/
def sW1 : MStore :=
  { x := fun i => (i : ℚ), y := fun _ => 0, distX := fun _ => 0 }

/-- A second input store whose `x` differs from `sW1.x` only at the pinned
dof `0`. -/
def sW2 : MStore :=
  { x := fun i => if i = 0 then 5 else (i : ℚ), y := fun _ => 0,
    distX := fun _ => 0 }

end KMass

/-! ## Theorems: force integrator -/

namespace Force

/-- Accumulating `a + f x` over a list is the starting value plus the sum
of the mapped list. -/
theorem foldl_add_eq_sum (f : ℕ → ℚ) (l : List ℕ) :
    ∀ a : ℚ, l.foldl (fun acc x => acc + f x) a = a + (l.map f).sum := by
  induction l with
  | nil => intro a; simp
  | cons x l ih => intro a; simp [ih, add_assoc]

/-- The matrix-valued accumulation of `AddMultVWt` over a list of
quadrature points, read at one entry, is the initial entry plus the sum
of the per-point contributions at that entry. -/
theorem foldl_mat_eq_sum (F : ℕ → ℕ → ℕ → ℚ) (l : List ℕ) :
    ∀ (g : ℕ → ℕ → ℚ) (j k : ℕ),
      (l.foldl (fun m q => fun j' k' => m j' k' + F q j' k') g) j k =
        g j k + (l.map (fun q => F q j k)).sum := by
  induction l with
  | nil => intros; simp
  | cons x l ih => intro g j k; simp [ih, add_assoc]

/-- Summing a function mapped over `List.range n` equals the `Finset`
quadrature sum. -/
theorem map_range_sum (f : ℕ → ℚ) (n : ℕ) :
    ((List.range n).map f).sum = ∑ q in Finset.range n, f q := by
  induction n with
  | zero => simp
  | succ n ih => simp [List.range_succ, Finset.sum_range_succ, ih]

/-- C8: every entry of the local force matrix equals the quadrature sum,
over the zone's points, of the stress-against-kinematic-gradient
contraction tested with the thermodynamic basis value: for a
thermodynamic dof `j` and the flat kinematic index of dof `i < h1`
in velocity component `vd`,
`elmat(j, i + vd*h1) = Σ_q shape(q)(j) · Σ_gd stressJinvT(vd)(e·nqp+q, gd) · vshape(q)(i, gd)`,
the matrix having started from zero. -/
theorem assembleElementMatrix2_spec (stressJinvT vshape : ℕ → ℕ → ℕ → ℚ)
    (shape : ℕ → ℕ → ℚ) (dim e nqp h1dofs_cnt : ℕ) (j i vd : ℕ)
    (hi : i < h1dofs_cnt) :
    assembleElementMatrix2 stressJinvT vshape shape dim e nqp h1dofs_cnt j
        (i + vd * h1dofs_cnt) =
      ∑ q in Finset.range nqp, shape q j *
        ∑ gd in Finset.range dim,
          stressJinvT vd (e * nqp + q) gd * vshape q i gd := by
  have h1pos : 0 < h1dofs_cnt := lt_of_le_of_lt (Nat.zero_le i) hi
  have hmod : (i + vd * h1dofs_cnt) % h1dofs_cnt = i := by
    rw [Nat.add_mul_mod_self_right, Nat.mod_eq_of_lt hi]
  have hdiv : (i + vd * h1dofs_cnt) / h1dofs_cnt = vd := by
    rw [Nat.add_mul_div_right _ _ h1pos, Nat.div_eq_of_lt hi, Nat.zero_add]
  unfold assembleElementMatrix2
  rw [foldl_mat_eq_sum, map_range_sum, zero_add]
  refine Finset.sum_congr rfl ?_
  intro _q _
  rw [hmod, hdiv]
  congr 1
  unfold locForce
  rw [foldl_add_eq_sum, map_range_sum, zero_add]

/-- C8 witness: the theorem applied to a concrete single-zone fixture
(`dim = 2`, two quadrature points, two kinematic dofs, constant basis
and stress values, entry `j = 0`, `i = 1`, `vd = 1`). -/
theorem assembleElementMatrix2_spec_witness :
    assembleElementMatrix2 (fun _ _ _ => 1) (fun _ _ _ => 1) (fun _ _ => 1)
        2 0 2 2 0 (1 + 1 * 2) =
      ∑ _q in Finset.range 2, (1 : ℚ) *
        ∑ _gd in Finset.range 2, (1 : ℚ) * 1 :=
  assembleElementMatrix2_spec (fun _ _ _ => 1) (fun _ _ _ => 1) (fun _ _ => 1)
    2 0 2 2 0 1 1 (by decide)

end Force

/-! ## Theorems: mass operator -/

namespace KMass

/-- With `Setup` done (non-null `massOperator`) and a nonzero pinned count,
`Mult` succeeds and produces the symmetric double elimination spelled
out: zero the pinned entries of the input copy, apply the mass action,
zero the pinned entries of the result. -/
theorem mult_eq_of_some (op : OpState) (massAction : (ℤ → ℚ) → (ℤ → ℚ))
    (hM : op.massOperator = some massAction) (hcnt : op.ess_tdofs_count ≠ 0)
    (s : MStore) :
    Mult op s = Except.ok
      { x := s.x
        y := setSubVector (massAction (setSubVector s.x op.ess_tdofs 0)) op.ess_tdofs 0
        distX := setSubVector s.x op.ess_tdofs 0 } := by
  unfold Mult
  rw [hM]
  simp [hcnt]

/-- C2: with a nonempty pinned-dof set recorded (nonzero
`ess_tdofs_count`), `Mult` zeroes every pinned entry of the output, and
two inputs that agree outside the pinned dofs produce identical outputs:
the output is independent of the input's pinned-dof entries. -/
theorem mult_pinned_zero_independent (op : OpState)
    (massAction : (ℤ → ℚ) → (ℤ → ℚ))
    (hM : op.massOperator = some massAction) (hcnt : op.ess_tdofs_count ≠ 0)
    (s1 s2 : MStore) (hagree : ∀ i, i ∉ op.ess_tdofs → s1.x i = s2.x i) :
    ∃ r1 r2, Mult op s1 = Except.ok r1 ∧ Mult op s2 = Except.ok r2 ∧
      (∀ i ∈ op.ess_tdofs, r1.y i = 0) ∧ r1.y = r2.y := by
  have hd : setSubVector s1.x op.ess_tdofs 0 =
      setSubVector s2.x op.ess_tdofs 0 := by
    funext i
    unfold setSubVector
    by_cases hi : i ∈ op.ess_tdofs
    · simp [hi]
    · simp [hi, hagree i hi]
  refine ⟨_, _, mult_eq_of_some op massAction hM hcnt s1,
    mult_eq_of_some op massAction hM hcnt s2, ?_, ?_⟩
  · intro i hi
    simp [setSubVector, hi]
  · simp [hd]

/-- C2 witness: the theorem applied to the one-pinned-dof operator `opW`
and the two stores `sW1`, `sW2` that differ only at the pinned dof `0`. -/
theorem mult_pinned_zero_independent_witness :
    ∃ r1 r2, Mult opW sW1 = Except.ok r1 ∧ Mult opW sW2 = Except.ok r2 ∧
      (∀ i ∈ opW.ess_tdofs, r1.y i = 0) ∧ r1.y = r2.y :=
  mult_pinned_zero_independent opW (fun v => v) rfl (by decide) sW1 sW2
    (by
      intro i hi
      have h0 : i ≠ 0 := by
        intro h
        exact hi (by simp [opW, h])
      simp [sW1, sW2, h0])

/-- C9: `Mult` never mutates its input vector `x`: whenever the call
succeeds, the `x` slot of the resulting store is unchanged (every
statement of the body writes only `distX` or `y`). -/
theorem mult_preserves_input (op : OpState) (s r : MStore)
    (h : Mult op s = Except.ok r) : r.x = s.x := by
  unfold Mult at h
  cases hM : op.massOperator with
  | none =>
    rw [hM] at h
    exact absurd h (by simp)
  | some massAction =>
    rw [hM] at h
    by_cases hcnt : op.ess_tdofs_count ≠ 0 <;>
      simp [hcnt] at h <;> rw [← h]

/-- C9 witness: the theorem applied to the concrete operator `opW` and
store `sW1`. -/
theorem mult_preserves_input_witness : (multOk opW sW1).x = sW1.x :=
  mult_preserves_input opW sW1 (multOk opW sW1) rfl

/-- C5 counterexample: on the freshly constructed operator (before
`Setup`), `Mult` dereferences the null `massOperator` — the failure is a
null dereference (undiagnosed undefined behaviour in the C++ source, as
no assertion guards the pointer), not a fatal assertion. -/
theorem mult_before_setup_counterexample :
    Mult ctorState { x := fun _ => 0, y := fun _ => 0, distX := fun _ => 0 } =
      Except.error Failure.nullDeref ∧
    Failure.nullDeref ≠ Failure.assertFail :=
  ⟨rfl, by decide⟩

/-- C5 amended: calling `Mult` on any operator state whose `massOperator`
is still null (i.e. before `Setup`) dereferences the null pointer —
undefined behaviour rather than a diagnosed fatal assertion; it is still
not a recoverable condition. -/
theorem mult_null_operator (op : OpState) (s : MStore)
    (hM : op.massOperator = none) :
    Mult op s = Except.error Failure.nullDeref := by
  unfold Mult
  rw [hM]

/-- C5 amended witness: the theorem applied to the constructor state. -/
theorem mult_null_operator_witness :
    Mult ctorState { x := fun _ => 1, y := fun _ => 1, distX := fun _ => 1 } =
      Except.error Failure.nullDeref :=
  mult_null_operator ctorState _ rfl

/-- C6 counterexample: after a first call recording 3 pinned dofs, a
second call with the different nonzero count 2 is silently accepted (no
assertion fires) and replaces the recorded count. -/
theorem second_setdofs_accepted_counterexample :
    isErr (SetEssentialTrueDofs ctorState [10, 20, 30] 0) = false ∧
    (setDofsOk ctorState [10, 20, 30] 0).ess_tdofs_count = 3 ∧
    (setDofsOk ctorState [10, 20, 30] 0).ess_tdofs_size = 3 ∧
    ((2 : ℤ) ≠ 3 ∧ (2 : ℤ) ≠ 0 ∧ ([10, 20] : List ℤ).length = 2) ∧
    isErr (SetEssentialTrueDofs (setDofsOk ctorState [10, 20, 30] 0)
      [10, 20] 0) = false ∧
    (setDofsOk (setDofsOk ctorState [10, 20, 30] 0) [10, 20] 0).ess_tdofs_count
      = 2 := by
  decide

/-- C6 amended: once a nonzero size is recorded, a repeated
`SetEssentialTrueDofs` call fails its assertion exactly when the new dof
count exceeds the recorded size; any call with a count at most the
recorded size — including a different, smaller, nonzero count — is
silently accepted. -/
theorem setdofs_second_call_guard (op : OpState) (dofs : List ℤ)
    (othersCount : ℤ) (h : op.ess_tdofs_size ≠ 0) :
    isErr (SetEssentialTrueDofs op dofs othersCount) =
      decide ((op.ess_tdofs_size : ℤ) < (dofs.length : ℤ)) := by
  unfold SetEssentialTrueDofs
  by_cases hle : (dofs.length : ℤ) ≤ (op.ess_tdofs_size : ℤ)
  · by_cases hz : (dofs.length : ℤ) = 0 <;>
      simp [h, hle, hz, isErr, not_lt.mpr hle]
  · simp [h, hle, isErr, lt_of_not_le hle]

/-- C6 amended witness: the theorem applied to the state recorded by a
first call with 3 dofs and a second call with 2 dofs. -/
theorem setdofs_second_call_guard_witness :
    isErr (SetEssentialTrueDofs (setDofsOk ctorState [10, 20, 30] 0)
      [10, 20] 0) =
      decide (((setDofsOk ctorState [10, 20, 30] 0).ess_tdofs_size : ℤ) <
        (([10, 20] : List ℤ).length : ℤ)) :=
  setdofs_second_call_guard _ [10, 20] 0 (by decide)

end KMass

/-! ## Theorems: adaptive time-stepping controller -/

namespace Ctl

/-- Characterization of one loop-body iteration: the decision is a strict
first-match ordering on `dt_est` against the (clamped) `dt` used for the
attempt — rejection (and possibly the abort) is tested first, then
growth, else an unchanged accepted step. -/
theorem body_eq {σ : Type} (cfg : Cfg σ) (st : LState σ) :
    body cfg st =
      if attemptEst cfg st < clampedDt cfg st then
        if clampedDt cfg st * (85 / 100) < cfg.eps then
          Outcome.crashed (crashState cfg st)
        else Outcome.running (rejState cfg st)
      else Outcome.running (accState cfg st) := by
  unfold body crashState rejState accState lsMarked attemptEst clampedDt
  dsimp only

/-- On the concrete run `cfgW`/`stW` the first attempt is rejected: the
post-step estimate `1/2` is below the attempted step `1`. -/
theorem cfgW_rejects : attemptEst cfgW stW < clampedDt cfgW stW := by
  norm_num [attemptEst, clampedDt, cfgW, stW]

/-- On `cfgW`/`stW` the shrunken step stays above the abort floor. -/
theorem cfgW_floor : cfgW.eps ≤ clampedDt cfgW stW * (85 / 100) := by
  norm_num [clampedDt, cfgW, stW]

/-- The first attempt of `cfgW`/`stW` evaluates to a rejection. -/
theorem bodyW_eq : body cfgW stW = Outcome.running (rejState cfgW stW) := by
  rw [body_eq, if_pos cfgW_rejects, if_neg (not_lt.mpr cfgW_floor)]

/-- C1: a rejected attempt (post-step estimate below the attempted `dt`)
that does not hit the abort floor restores `S` and `t` exactly to the
values saved before the attempt, keeps the outer iteration index `ti`,
invalidates the quadrature cache, and shrinks `dt` by `0.85`; when the
loop then continues, it re-runs the body, and the state after that retry
is either again the saved state (another rejection) or the saved state
advanced by the retried smaller step — never a partially-applied update
from the rejected attempt. -/
theorem rejection_rollback_retry {σ : Type} (cfg : Cfg σ) (st : LState σ)
    (hrej : attemptEst cfg st < clampedDt cfg st)
    (hfloor : cfg.eps ≤ clampedDt cfg st * (85 / 100)) :
    ∃ st', body cfg st = Outcome.running st' ∧
      st'.S = st.S ∧ st'.t = st.t ∧ st'.ti = st.ti ∧
      st'.qdataValid = false ∧ st'.dt = clampedDt cfg st * (85 / 100) ∧
      st'.S_old = st.S ∧ st'.t_old = st.t ∧
      (st'.last_step = false →
        loopStep cfg (Outcome.running st') = body cfg st') ∧
      (∀ st'', body cfg st' = Outcome.running st'' →
        (st''.S = st.S ∧ st''.t = st.t) ∨
        (st''.S = cfg.stepF st.S st.t (clampedDt cfg st') ∧
          st''.t = st.t + clampedDt cfg st')) := by
  refine ⟨rejState cfg st, ?_, rfl, rfl, rfl, rfl, rfl, rfl, rfl, ?_, ?_⟩
  · rw [body_eq, if_pos hrej, if_neg (not_lt.mpr hfloor)]
  · intro h
    simp [loopStep, h]
  · intro st'' h
    rw [body_eq] at h
    by_cases h2 : attemptEst cfg (rejState cfg st) < clampedDt cfg (rejState cfg st)
    · rw [if_pos h2] at h
      by_cases h3 : clampedDt cfg (rejState cfg st) * (85 / 100) < cfg.eps
      · rw [if_pos h3] at h
        exact absurd h (by simp)
      · rw [if_neg h3] at h
        injection h with h
        subst h
        exact Or.inl ⟨rfl, rfl⟩
    · rw [if_neg h2] at h
      injection h with h
      subst h
      exact Or.inr ⟨rfl, rfl⟩

/-- C1 witness: the theorem applied to `cfgW`/`stW`, whose first attempt
is rejected. -/
theorem rejection_rollback_retry_witness :
    ∃ st', body cfgW stW = Outcome.running st' ∧
      st'.S = stW.S ∧ st'.t = stW.t ∧ st'.ti = stW.ti ∧
      st'.qdataValid = false ∧ st'.dt = clampedDt cfgW stW * (85 / 100) ∧
      st'.S_old = stW.S ∧ st'.t_old = stW.t ∧
      (st'.last_step = false →
        loopStep cfgW (Outcome.running st') = body cfgW st') ∧
      (∀ st'', body cfgW st' = Outcome.running st'' →
        (st''.S = stW.S ∧ st''.t = stW.t) ∨
        (st''.S = cfgW.stepF stW.S stW.t (clampedDt cfgW st') ∧
          st''.t = stW.t + clampedDt cfgW st')) :=
  rejection_rollback_retry cfgW stW cfgW_rejects cfgW_floor

/-- C4: the step-size decision after an attempt follows the strict
first-match ordering on `dt_est`: if `dt_est < dt`, the step is rejected
(`S` and `t` keep their pre-attempt values, `ti` does not advance) and
`dt` is multiplied by `0.85`; otherwise the step is accepted (`t`
advances by the attempted `dt`, `ti` increments) and `dt` is multiplied
by `1.02` exactly when `dt_est > 1.25·dt`, else left unchanged. -/
theorem step_decision_rule {σ : Type} (cfg : Cfg σ) (st : LState σ)
    (hfloor : cfg.eps ≤ clampedDt cfg st * (85 / 100)) :
    ∃ st', body cfg st = Outcome.running st' ∧
      st'.dt = (if attemptEst cfg st < clampedDt cfg st then
          clampedDt cfg st * (85 / 100)
        else if (125 / 100 : ℚ) * clampedDt cfg st < attemptEst cfg st then
          clampedDt cfg st * (102 / 100)
        else clampedDt cfg st) ∧
      st'.S = (if attemptEst cfg st < clampedDt cfg st then st.S
        else cfg.stepF st.S st.t (clampedDt cfg st)) ∧
      st'.t = (if attemptEst cfg st < clampedDt cfg st then st.t
        else st.t + clampedDt cfg st) ∧
      st'.ti = (if attemptEst cfg st < clampedDt cfg st then st.ti
        else st.ti + 1) := by
  by_cases hrej : attemptEst cfg st < clampedDt cfg st
  · exact ⟨rejState cfg st,
      by rw [body_eq, if_pos hrej, if_neg (not_lt.mpr hfloor)],
      by simp [rejState, hrej], by simp [rejState, hrej],
      by simp [rejState, hrej], by simp [rejState, hrej]⟩
  · exact ⟨accState cfg st, by rw [body_eq, if_neg hrej],
      by simp [accState, hrej], by simp [accState, hrej],
      by simp [accState, hrej], by simp [accState, hrej]⟩

/-- C4 witness: the theorem applied to `cfgW`/`stW`. -/
theorem step_decision_rule_witness :
    ∃ st', body cfgW stW = Outcome.running st' ∧
      st'.dt = (if attemptEst cfgW stW < clampedDt cfgW stW then
          clampedDt cfgW stW * (85 / 100)
        else if (125 / 100 : ℚ) * clampedDt cfgW stW < attemptEst cfgW stW then
          clampedDt cfgW stW * (102 / 100)
        else clampedDt cfgW stW) ∧
      st'.S = (if attemptEst cfgW stW < clampedDt cfgW stW then stW.S
        else cfgW.stepF stW.S stW.t (clampedDt cfgW stW)) ∧
      st'.t = (if attemptEst cfgW stW < clampedDt cfgW stW then stW.t
        else stW.t + clampedDt cfgW stW) ∧
      st'.ti = (if attemptEst cfgW stW < clampedDt cfgW stW then stW.ti
        else stW.ti + 1) :=
  step_decision_rule cfgW stW cfgW_floor

/-- C7 counterexample: on the concrete run `cfgW`/`stW` the first attempt
is rejected (the estimate is below the attempted `dt`, and `S` and `ti`
keep their values), yet the step counter `steps` is incremented — the
`steps++` of the source runs before the rejection check and is never
rolled back, so a rejected attempt does advance the step counter. -/
theorem rejected_attempt_advances_steps :
    attemptEst cfgW stW < clampedDt cfgW stW ∧
    body cfgW stW = Outcome.running (rejState cfgW stW) ∧
    (rejState cfgW stW).S = stW.S ∧
    (rejState cfgW stW).ti = stW.ti ∧
    (rejState cfgW stW).steps = stW.steps + 1 ∧
    (rejState cfgW stW).steps ≠ stW.steps :=
  ⟨cfgW_rejects, bodyW_eq, rfl, rfl, rfl, by decide⟩

/-- C7 amended: a rejected attempt retains the outer iteration index `ti`
(an accepted one advances it by one), but the step counter `steps` is
incremented once per attempt — by rejected attempts as well as accepted
ones, the increment running before the rejection check. -/
theorem steps_increment_ti_retention {σ : Type} (cfg : Cfg σ)
    (st st' : LState σ) (h : body cfg st = Outcome.running st') :
    st'.steps = st.steps + 1 ∧
    st'.ti = (if attemptEst cfg st < clampedDt cfg st then st.ti
      else st.ti + 1) := by
  rw [body_eq] at h
  by_cases hrej : attemptEst cfg st < clampedDt cfg st
  · rw [if_pos hrej] at h
    by_cases hfl : clampedDt cfg st * (85 / 100) < cfg.eps
    · rw [if_pos hfl] at h
      exact absurd h (by simp)
    · rw [if_neg hfl] at h
      injection h with h
      subst h
      exact ⟨rfl, by rw [if_pos hrej]; rfl⟩
  · rw [if_neg hrej] at h
    injection h with h
    subst h
    exact ⟨rfl, by rw [if_neg hrej]; rfl⟩

/-- C7 amended witness: the theorem applied to the rejected attempt of
`cfgW`/`stW`. -/
theorem steps_increment_ti_retention_witness :
    (rejState cfgW stW).steps = stW.steps + 1 ∧
    (rejState cfgW stW).ti =
      (if attemptEst cfgW stW < clampedDt cfgW stW then stW.ti
        else stW.ti + 1) :=
  steps_increment_ti_retention cfgW stW (rejState cfgW stW) bodyW_eq

/-- C10: with the step limit disabled (`max_tsteps < 0`, the default) and
the attempt clamped to reach the final time (so `last_step` was marked),
a rejection restores `S` and `t` but leaves `last_step` set — the
rejection branch re-enables a retry only when `steps < max_tsteps` — so
the loop's next condition check exits immediately and the shrunken `dt`
is never retried. -/
theorem clamped_rejection_exits {σ : Type} (cfg : Cfg σ) (st : LState σ)
    (hmax : cfg.max_tsteps < 0) (hsteps : 0 ≤ st.steps)
    (hclamp : cfg.t_final ≤ st.t + st.dt)
    (hrej : attemptEst cfg st < clampedDt cfg st)
    (hfloor : cfg.eps ≤ clampedDt cfg st * (85 / 100)) :
    ∃ st', body cfg st = Outcome.running st' ∧ st'.last_step = true ∧
      st'.S = st.S ∧ st'.t = st.t ∧ st'.ti = st.ti ∧
      loopStep cfg (Outcome.running st') = Outcome.exited st' := by
  have h1 : ¬ (st.steps + 1 < cfg.max_tsteps) := by omega
  have h2 : ¬ (st.steps = cfg.max_tsteps) := by omega
  have hls : (rejState cfg st).last_step = true := by
    unfold rejState lsMarked
    rw [if_neg h1, if_neg h2, if_pos hclamp]
  refine ⟨rejState cfg st,
    by rw [body_eq, if_pos hrej, if_neg (not_lt.mpr hfloor)],
    hls, rfl, rfl, rfl, ?_⟩
  simp [loopStep, hls]

/-- A crashed outcome absorbs all further loop turns. -/
theorem runO_crashed {σ : Type} (cfg : Cfg σ) (c : LState σ) :
    ∀ n, runO cfg (Outcome.crashed c) n = Outcome.crashed c := by
  intro n
  induction n with
  | zero => rfl
  | succ n ih => exact ih

/-- In an un-clamped iteration with the step limit disabled and an
always-negative estimate, the loop turn rejects: it either crashes (the
shrunken `dt` fell below the floor) or rolls back with `dt` shrunk by
`0.85`, preserving the rejection invariant. -/
theorem reject_step {σ : Type} (cfg : Cfg σ) (st : LState σ)
    (hmax : cfg.max_tsteps < 0) (hrej : ∀ s, cfg.est s < 0)
    (hInv : Inv cfg st) :
    (st.dt * (85 / 100) < cfg.eps →
      loopStep cfg (Outcome.running st) = Outcome.crashed (crashState cfg st)) ∧
    (cfg.eps ≤ st.dt * (85 / 100) →
      loopStep cfg (Outcome.running st) = Outcome.running (rejState cfg st) ∧
      Inv cfg (rejState cfg st) ∧
      (rejState cfg st).dt = st.dt * (85 / 100)) := by
  obtain ⟨hsteps, hls, hdt, hcl⟩ := hInv
  have hclamp : ¬ (cfg.t_final ≤ st.t + st.dt) := not_le.mpr hcl
  have hc : clampedDt cfg st = st.dt := by rw [clampedDt, if_neg hclamp]
  have hre : attemptEst cfg st < clampedDt cfg st := by
    rw [hc]
    exact lt_trans (hrej _) hdt
  have hloop : loopStep cfg (Outcome.running st) = body cfg st := by
    simp [loopStep, hls]
  have hshrink : st.dt * (85 / 100) < st.dt := by
    calc st.dt * (85 / 100) < st.dt * 1 :=
          mul_lt_mul_of_pos_left (by norm_num) hdt
      _ = st.dt := mul_one _
  constructor
  · intro hfl
    rw [hloop, body_eq, if_pos hre, if_pos (by rw [hc]; exact hfl)]
  · intro hfl
    have hnfl : ¬ (clampedDt cfg st * (85 / 100) < cfg.eps) := by
      rw [hc]
      exact not_lt.mpr hfl
    have hdteq : (rejState cfg st).dt = st.dt * (85 / 100) := by
      show clampedDt cfg st * (85 / 100) = st.dt * (85 / 100)
      rw [hc]
    refine ⟨by rw [hloop, body_eq, if_pos hre, if_neg hnfl], ?_, hdteq⟩
    have h1 : ¬ (st.steps + 1 < cfg.max_tsteps) := by omega
    have h2 : ¬ (st.steps = cfg.max_tsteps) := by omega
    refine ⟨by show 0 ≤ st.steps + 1; omega, ?_, ?_, ?_⟩
    · show (if st.steps + 1 < cfg.max_tsteps then false else lsMarked cfg st)
        = false
      rw [if_neg h1]
      unfold lsMarked
      rw [if_neg h2, if_neg hclamp]
      exact hls
    · show 0 < (rejState cfg st).dt
      rw [hdteq]
      exact mul_pos hdt (by norm_num)
    · show (rejState cfg st).t + (rejState cfg st).dt < cfg.t_final
      have ht : (rejState cfg st).t = st.t := rfl
      rw [ht, hdteq]
      exact lt_trans (add_lt_add_left hshrink st.t) hcl

/-- After enough rejections to drive `dt·0.85^(k+1)` below the floor, the
run reaches the crash outcome. -/
theorem crash_after_rejections {σ : Type} (cfg : Cfg σ)
    (hmax : cfg.max_tsteps < 0) (hrej : ∀ s, cfg.est s < 0) :
    ∀ (k : ℕ) (st : LState σ), Inv cfg st →
      st.dt * (85 / 100) ^ (k + 1) < cfg.eps →
      ∃ n c, run cfg st n = Outcome.crashed c := by
  intro k
  induction k with
  | zero =>
    intro st hInv hlt
    rw [pow_one] at hlt
    exact ⟨1, crashState cfg st, (reject_step cfg st hmax hrej hInv).1 hlt⟩
  | succ k ih =>
    intro st hInv hlt
    by_cases hfl : st.dt * (85 / 100) < cfg.eps
    · exact ⟨1, crashState cfg st, (reject_step cfg st hmax hrej hInv).1 hfl⟩
    · obtain ⟨hbody, hInv', hdt'⟩ :=
        (reject_step cfg st hmax hrej hInv).2 (not_lt.mp hfl)
      have hlt' : (rejState cfg st).dt * (85 / 100) ^ (k + 1) < cfg.eps := by
        rw [hdt']
        calc st.dt * (85 / 100) * (85 / 100) ^ (k + 1)
            = st.dt * (85 / 100) ^ (k + 1 + 1) := by ring
          _ < cfg.eps := hlt
      obtain ⟨n, c, hn⟩ := ih (rejState cfg st) hInv' hlt'
      refine ⟨n + 1, c, ?_⟩
      have hstep : run cfg st (n + 1) =
          runO cfg (loopStep cfg (Outcome.running st)) n := rfl
      rw [hstep, hbody]
      exact hn

/-- C3: in a run where every attempt is rejected (here forced by an
estimate that is always negative while the attempted `dt` stays
positive), with the step limit disabled and no final-time clamp pending,
the retry loop terminates: each rejection multiplies `dt` by `0.85`, so
after finitely many rejections `dt` falls below the `eps` floor and the
loop reaches the fatal `MFEM_ABORT` crash outcome instead of looping
forever. -/
theorem all_rejected_run_crashes {σ : Type} (cfg : Cfg σ) (st : LState σ)
    (hmax : cfg.max_tsteps < 0) (heps : 0 < cfg.eps)
    (hsteps : 0 ≤ st.steps) (hls : st.last_step = false)
    (hdt : 0 < st.dt) (hcl : st.t + st.dt < cfg.t_final)
    (hrej : ∀ s, cfg.est s < 0) :
    ∃ n c, run cfg st n = Outcome.crashed c := by
  obtain ⟨m, hm⟩ := exists_pow_lt_of_lt_one (div_pos heps hdt)
    (show (85 / 100 : ℚ) < 1 by norm_num)
  have hlt : st.dt * (85 / 100) ^ (m + 1) < cfg.eps := by
    have h1 : (85 / 100 : ℚ) ^ m * st.dt < cfg.eps := (lt_div_iff₀ hdt).mp hm
    have h2 : (85 / 100 : ℚ) ^ (m + 1) ≤ (85 / 100 : ℚ) ^ m :=
      pow_le_pow_of_le_one (by norm_num) (by norm_num) (Nat.le_succ m)
    calc st.dt * (85 / 100) ^ (m + 1) ≤ st.dt * (85 / 100) ^ m :=
          mul_le_mul_of_nonneg_left h2 (le_of_lt hdt)
      _ = (85 / 100) ^ m * st.dt := mul_comm _ _
      _ < cfg.eps := h1
  exact crash_after_rejections cfg hmax hrej m st ⟨hsteps, hls, hdt, hcl⟩ hlt

/-- C3 witness: the theorem applied to `cfgR`/`stW`, whose estimate is
constantly `-1`. -/
theorem all_rejected_run_crashes_witness :
    ∃ n c, run cfgR stW n = Outcome.crashed c :=
  all_rejected_run_crashes cfgR stW (by decide) (by norm_num [cfgR])
    (by decide) rfl (by norm_num [stW]) (by norm_num [cfgR, stW])
    (fun s => by norm_num [cfgR])

/-- C10 witness: the theorem applied to `cfgX`/`stX`, where the attempt is
clamped to the final time and rejected. -/
theorem clamped_rejection_exits_witness :
    ∃ st', body cfgX stX = Outcome.running st' ∧ st'.last_step = true ∧
      st'.S = stX.S ∧ st'.t = stX.t ∧ st'.ti = stX.ti ∧
      loopStep cfgX (Outcome.running st') = Outcome.exited st' :=
  clamped_rejection_exits cfgX stX (by decide) (by decide)
    (by norm_num [cfgX, stX])
    (by norm_num [attemptEst, clampedDt, cfgX, stX])
    (by norm_num [clampedDt, cfgX, stX])

end Ctl

end Laghos
